import Mathlib

/-
  Shallow embedding of the double-pendulum simulation core
  (src/services/physicsEngine.ts, src/App.tsx, src/types.ts).

  Conventions of the embedding:
  * JavaScript numbers are modelled as real numbers (ℝ).
  * `Math.sin`, `Math.cos`, `Math.PI` become `Real.sin`, `Real.cos`, `Real.pi`.
  * `Math.floor` becomes `Int.floor`.
  * `Number(x.toFixed(d))` rounds to the nearest multiple of 10⁻ᵈ, ties
    going to the larger value (ECMAScript picks the larger candidate n);
    this is `⌊x * 10^d + 1/2⌋ / 10^d`, modelled by `round2` and `round1`.
  * The four-element state vector `[t1, w1, t2, w2]` of `derivatives`
    becomes the structure `Vec4`; the elementwise `Array.map` updates of
    `rk4` become the componentwise helper `updVec`.
-/

noncomputable section

/-- Mirrors `PendulumConfig` from src/types.ts. -/
structure PendulumConfig where
  L1 : ℝ
  L2 : ℝ
  m1 : ℝ
  m2 : ℝ
  g : ℝ
  damping : ℝ

/-- Mirrors `PendulumState` from src/types.ts. -/
structure PendulumState where
  theta1 : ℝ
  omega1 : ℝ
  theta2 : ℝ
  omega2 : ℝ
  time : ℝ

/-- Mirrors `HistoryPoint` from src/types.ts. -/
structure HistoryPoint where
  time : ℝ
  theta1 : ℝ
  theta2 : ℝ

/-- The four-element state vector `[theta1, omega1, theta2, omega2]`
used by `PhysicsEngine.derivatives`. -/
structure Vec4 where
  v0 : ℝ
  v1 : ℝ
  v2 : ℝ
  v3 : ℝ

/-- Mirrors `PhysicsEngine.derivatives` from src/services/physicsEngine.ts. -/
def derivatives (state : Vec4) (config : PendulumConfig) : Vec4 :=
  let t1 := state.v0
  let w1 := state.v1
  let t2 := state.v2
  let w2 := state.v3
  let delta := t1 - t2
  let den := 2 * config.m1 + config.m2 - config.m2 * Real.cos (2 * t1 - 2 * t2)
  let a1 :=
    (-config.g * (2 * config.m1 + config.m2) * Real.sin t1
      - config.m2 * config.g * Real.sin (t1 - 2 * t2)
      - 2 * Real.sin delta * config.m2
          * (w2 * w2 * config.L2 + w1 * w1 * config.L1 * Real.cos delta))
    / (config.L1 * den)
  let a2 :=
    (2 * Real.sin delta
      * (w1 * w1 * config.L1 * (config.m1 + config.m2)
        + config.g * (config.m1 + config.m2) * Real.cos t1
        + w2 * w2 * config.L2 * config.m2 * Real.cos delta))
    / (config.L2 * den)
  let dampedA1 := a1 - config.damping * w1
  let dampedA2 := a2 - config.damping * w2
  ⟨w1, dampedA1, w2, dampedA2⟩

/-- The elementwise update `y.map((v, i) => v + k[i] * h)` used by
`PhysicsEngine.rk4` (with `h` being `dt / 2` for k2, k3 and `dt` for k4). -/
def updVec (y k : Vec4) (h : ℝ) : Vec4 :=
  ⟨y.v0 + k.v0 * h, y.v1 + k.v1 * h, y.v2 + k.v2 * h, y.v3 + k.v3 * h⟩

/-- Mirrors `PhysicsEngine.rk4` from src/services/physicsEngine.ts. -/
def rk4 (state : PendulumState) (config : PendulumConfig) (dt : ℝ) : PendulumState :=
  let y : Vec4 := ⟨state.theta1, state.omega1, state.theta2, state.omega2⟩
  let k1 := derivatives y config
  let k2 := derivatives (updVec y k1 (dt / 2)) config
  let k3 := derivatives (updVec y k2 (dt / 2)) config
  let k4 := derivatives (updVec y k3 dt) config
  let nextY : Vec4 :=
    ⟨y.v0 + (dt / 6) * (k1.v0 + 2 * k2.v0 + 2 * k3.v0 + k4.v0),
     y.v1 + (dt / 6) * (k1.v1 + 2 * k2.v1 + 2 * k3.v1 + k4.v1),
     y.v2 + (dt / 6) * (k1.v2 + 2 * k2.v2 + 2 * k3.v2 + k4.v2),
     y.v3 + (dt / 6) * (k1.v3 + 2 * k2.v3 + 2 * k3.v3 + k4.v3)⟩
  { theta1 := nextY.v0
    omega1 := nextY.v1
    theta2 := nextY.v2
    omega2 := nextY.v3
    time := state.time + dt }

/-- C1: for every input state vector and config, the derivative evaluator
returns `(omega1, a1 - damping*omega1, omega2, a2 - damping*omega2)` where
`a1` and `a2` are exactly the closed-form Lagrangian expressions of the
spec (with `delta = theta1 - theta2` and
`den = 2*m1 + m2 - m2*cos(2*theta1 - 2*theta2)`), and damping is
subtracted after the Lagrangian terms rather than folded into them. -/
theorem derivatives_lagrangian (t1 w1 t2 w2 : ℝ) (cfg : PendulumConfig) :
    derivatives ⟨t1, w1, t2, w2⟩ cfg =
      ⟨w1,
        (-cfg.g * (2 * cfg.m1 + cfg.m2) * Real.sin t1
            - cfg.m2 * cfg.g * Real.sin (t1 - 2 * t2)
            - 2 * Real.sin (t1 - t2) * cfg.m2
                * (w2 ^ 2 * cfg.L2 + w1 ^ 2 * cfg.L1 * Real.cos (t1 - t2)))
          / (cfg.L1 * (2 * cfg.m1 + cfg.m2 - cfg.m2 * Real.cos (2 * t1 - 2 * t2)))
          - cfg.damping * w1,
        w2,
        (2 * Real.sin (t1 - t2)
            * (w1 ^ 2 * cfg.L1 * (cfg.m1 + cfg.m2)
              + cfg.g * (cfg.m1 + cfg.m2) * Real.cos t1
              + w2 ^ 2 * cfg.L2 * cfg.m2 * Real.cos (t1 - t2)))
          / (cfg.L2 * (2 * cfg.m1 + cfg.m2 - cfg.m2 * Real.cos (2 * t1 - 2 * t2)))
          - cfg.damping * w2⟩ := by
  simp only [derivatives]
  congr 1 <;> ring

/-- C7: a single integration step with `dt = 0` returns the input state
unchanged in all five fields (identity law). -/
theorem rk4_zero_dt (s : PendulumState) (cfg : PendulumConfig) :
    rk4 s cfg 0 = s := by
  rcases s with ⟨a, b, c, d, t⟩
  simp [rk4, updVec]

/-- The elementwise update written with the scalar factor in front,
as the spec presents it (`state + (dt/2)*k`). -/
lemma updVec_comm (y k : Vec4) (h : ℝ) :
    updVec y k h = ⟨y.v0 + h * k.v0, y.v1 + h * k.v1, y.v2 + h * k.v2, y.v3 + h * k.v3⟩ := by
  simp only [updVec]
  congr 1 <;> ring

/-- C2: one integration step computes four evaluator samples k1 at the
state, k2 at state + (dt/2)*k1, k3 at state + (dt/2)*k2, k4 at
state + dt*k3, and returns state + (dt/6)*(k1 + 2*k2 + 2*k3 + k4)
componentwise on the four channels, with the time field advanced by
exactly dt.  The stepper is a pure function of its inputs (the equation
below determines the output from state, config and dt alone), so it is
deterministic and retains no state between calls. -/
theorem rk4_is_rk4 (s : PendulumState) (cfg : PendulumConfig) (dt : ℝ) :
    rk4 s cfg dt =
      let y : Vec4 := ⟨s.theta1, s.omega1, s.theta2, s.omega2⟩
      let k1 := derivatives y cfg
      let k2 := derivatives
        ⟨y.v0 + dt / 2 * k1.v0, y.v1 + dt / 2 * k1.v1,
         y.v2 + dt / 2 * k1.v2, y.v3 + dt / 2 * k1.v3⟩ cfg
      let k3 := derivatives
        ⟨y.v0 + dt / 2 * k2.v0, y.v1 + dt / 2 * k2.v1,
         y.v2 + dt / 2 * k2.v2, y.v3 + dt / 2 * k2.v3⟩ cfg
      let k4 := derivatives
        ⟨y.v0 + dt * k3.v0, y.v1 + dt * k3.v1,
         y.v2 + dt * k3.v2, y.v3 + dt * k3.v3⟩ cfg
      { theta1 := s.theta1 + dt / 6 * (k1.v0 + 2 * k2.v0 + 2 * k3.v0 + k4.v0)
        omega1 := s.omega1 + dt / 6 * (k1.v1 + 2 * k2.v1 + 2 * k3.v1 + k4.v1)
        theta2 := s.theta2 + dt / 6 * (k1.v2 + 2 * k2.v2 + 2 * k3.v2 + k4.v2)
        omega2 := s.omega2 + dt / 6 * (k1.v3 + 2 * k2.v3 + 2 * k3.v3 + k4.v3)
        time := s.time + dt } := by
  simp only [rk4, updVec_comm]

/-- Mirrors `Number(x.toFixed(2))` from src/App.tsx: round to the nearest
hundredth, ties to the larger value. -/
def round2 (x : ℝ) : ℝ := (⌊x * 100 + 1 / 2⌋ : ℝ) / 100

/-- Mirrors `Number(x.toFixed(1))` from src/App.tsx: round to the nearest
tenth, ties to the larger value. -/
def round1 (x : ℝ) : ℝ := (⌊x * 10 + 1 / 2⌋ : ℝ) / 10

/-- Mirrors `newHistory.slice(-100)` from src/App.tsx: keep at most the
last 100 entries, discarding from the front. -/
def takeLast100 (l : List HistoryPoint) : List HistoryPoint :=
  l.drop (l.length - 100)

/-- The history point built in src/App.tsx from the post-substep state:
time rounded to 0.01 s, angles converted to degrees and rounded to 0.1°. -/
def mkHistoryPoint (s : PendulumState) : HistoryPoint :=
  { time := round2 s.time
    theta1 := round1 (s.theta1 * 180 / Real.pi)
    theta2 := round1 (s.theta2 * 180 / Real.pi) }

/-- Mirrors `INITIAL_CONFIG` from src/App.tsx. -/
def INITIAL_CONFIG : PendulumConfig :=
  { L1 := 1.2, L2 := 1.0, m1 := 1.5, m2 := 1.0, g := 9.81, damping := 0.02 }

/-- Mirrors `INITIAL_STATE` from src/App.tsx. -/
def INITIAL_STATE : PendulumState :=
  { theta1 := Real.pi / 3, omega1 := 0, theta2 := Real.pi / 4, omega2 := 0, time := 0 }

/-- The mutable state of the App component in src/App.tsx: the `config`,
`state`, `isRunning` and `history` React states plus the `lastTimeRef`
timestamp anchor. -/
structure AppState where
  config : PendulumConfig
  state : PendulumState
  isRunning : Bool
  history : List HistoryPoint
  lastTime : Option ℝ

/-- Mirrors the `update` animation-frame callback of src/App.tsx, applied
to one wall-clock timestamp `time` (milliseconds).  When an anchor exists
and the simulation is running it clamps the frame delta to 0.032 s,
performs 10 RK4 sub-steps of `dt / 10`, conditionally appends one history
point when the 1/20-second bucket of simulation time advances, and in
every case records `time` as the new anchor. -/
def tick (ast : AppState) (time : ℝ) : AppState :=
  match ast.lastTime with
  | some t0 =>
    if ast.isRunning then
      let dt := min ((time - t0) / 1000) 0.032
      let subDt := dt / 10
      let current := (fun s => rk4 s ast.config subDt)^[10] ast.state
      let newHistory :=
        if ⌊current.time * 20⌋ > ⌊ast.state.time * 20⌋ then
          takeLast100 (ast.history ++ [mkHistoryPoint current])
        else ast.history
      { ast with state := current, history := newHistory, lastTime := some time }
    else
      { ast with lastTime := some time }
  | none => { ast with lastTime := some time }

/-- Mirrors `resetState` from src/App.tsx: restore `INITIAL_STATE`, clear
the history and the timestamp anchor; `config` and `isRunning` are not
touched. -/
def resetApp (ast : AppState) : AppState :=
  { ast with state := INITIAL_STATE, history := [], lastTime := none }

/-- The external stimuli the App reacts to: an animation-frame tick, a
config replacement from the sliders, the run/pause toggle, and the reset
button. -/
inductive AppEvent where
  | tick (ts : ℝ)
  | setConfig (cfg : PendulumConfig)
  | setRunning (b : Bool)
  | reset

/-- One step of the App's event loop. -/
def applyEvent (ast : AppState) : AppEvent → AppState
  | .tick ts => tick ast ts
  | .setConfig cfg => { ast with config := cfg }
  | .setRunning b => { ast with isRunning := b }
  | .reset => resetApp ast

/-- Runs a sequence of events from a given app state. -/
def run (ast : AppState) : List AppEvent → AppState
  | [] => ast
  | e :: rest => run (applyEvent ast e) rest

/-- The timestamp carried by a tick event, if any. -/
def tickStamp : AppEvent → Option ℝ
  | .tick ts => some ts
  | _ => none

/-- The App's state at mount: initial config and state, not running,
empty history, no timestamp anchor. -/
def appInit : AppState :=
  { config := INITIAL_CONFIG
    state := INITIAL_STATE
    isRunning := false
    history := []
    lastTime := none }

/-- Each RK4 step advances the time field by exactly its `dt`, so `n`
chained steps advance it by `n * dt`. -/
lemma iterate_rk4_time (cfg : PendulumConfig) (dt : ℝ) (n : ℕ) (s : PendulumState) :
    ((fun st => rk4 st cfg dt)^[n] s).time = s.time + n * dt := by
  induction n generalizing s with
  | zero => simp
  | succ n ih =>
    rw [Function.iterate_succ_apply, ih]
    simp only [rk4]
    push_cast
    ring

/-- C3: on a tick with an existing timestamp anchor and the running flag
set, the driver clamps the frame delta to
`min ((ts - t0) / 1000) 0.032` seconds, splits it into 10 equal
sub-steps, applies the RK4 stepper 10 times sequentially (each output
feeding the next input), and simulation time advances by the 10
increments of one tenth of the frame delta. -/
theorem tick_running (ast : AppState) (ts t0 : ℝ)
    (hl : ast.lastTime = some t0) (hr : ast.isRunning = true) :
    (tick ast ts).state =
      (fun s => rk4 s ast.config (min ((ts - t0) / 1000) 0.032 / 10))^[10] ast.state
    ∧ (tick ast ts).state.time =
      ast.state.time + 10 * (min ((ts - t0) / 1000) 0.032 / 10) := by
  rcases ast with ⟨cfg, st, b, hist, lt⟩
  simp only at hl hr
  subst hl
  subst hr
  have hstate : (tick ⟨cfg, st, true, hist, some t0⟩ ts).state =
      (fun s => rk4 s cfg (min ((ts - t0) / 1000) 0.032 / 10))^[10] st := by
    simp [tick]
  refine ⟨hstate, ?_⟩
  rw [hstate, iterate_rk4_time]
  push_cast
  ring

/-- Concrete app state exercising the running-tick theorem. -/
def astW3 : AppState :=
  { config := INITIAL_CONFIG, state := INITIAL_STATE, isRunning := true
    history := [], lastTime := some 0 }

/-- Witness for C3 at a concrete running app state and timestamp 16 ms. -/
theorem tick_running_witness :
    (tick astW3 16).state =
      (fun s => rk4 s astW3.config (min ((16 - 0) / 1000) 0.032 / 10))^[10] astW3.state
    ∧ (tick astW3 16).state.time =
      astW3.state.time + 10 * (min ((16 - 0) / 1000) 0.032 / 10) :=
  tick_running astW3 16 0 rfl rfl

/-- C4: a tick with no previous timestamp or with the running flag unset
performs no integration — state and history are unchanged — while the
timestamp anchor is still updated to the given timestamp. -/
theorem tick_idle (ast : AppState) (ts : ℝ)
    (h : ast.lastTime = none ∨ ast.isRunning = false) :
    (tick ast ts).state = ast.state ∧ (tick ast ts).history = ast.history
    ∧ (tick ast ts).lastTime = some ts := by
  rcases ast with ⟨cfg, st, b, hist, lt⟩
  rcases h with h | h
  · simp only at h
    subst h
    simp [tick]
  · simp only at h
    subst h
    cases lt <;> simp [tick]

/-- Concrete app state (paused, with an anchor) exercising the idle-tick
theorem. -/
def astW4 : AppState :=
  { config := INITIAL_CONFIG, state := INITIAL_STATE, isRunning := false
    history := [], lastTime := some 3 }

/-- Witness for C4 at a concrete paused app state and timestamp 5 ms. -/
theorem tick_idle_witness :
    (tick astW4 5).state = astW4.state ∧ (tick astW4 5).history = astW4.history
    ∧ (tick astW4 5).lastTime = some 5 :=
  tick_idle astW4 5 (Or.inr rfl)

/-- `slice(-100)` is the identity on lists of at most 100 entries. -/
lemma takeLast100_of_le (l : List HistoryPoint) (h : l.length ≤ 100) :
    takeLast100 l = l := by
  unfold takeLast100
  rw [Nat.sub_eq_zero_of_le h, List.drop_zero]

/-- C5: on a running tick (with room left in the history so that no
eviction interferes), exactly one history point is appended if and only
if the twentieth-of-a-second bucket of simulation time advanced,
`⌊new_time * 20⌋ > ⌊old_time * 20⌋`; the appended point carries the new
simulation time rounded to 0.01 s and the two angles converted to
degrees and rounded to 0.1°. -/
theorem tick_history_sample (ast : AppState) (ts t0 : ℝ)
    (hl : ast.lastTime = some t0) (hr : ast.isRunning = true)
    (hlen : ast.history.length ≤ 99) :
    (⌊((fun s => rk4 s ast.config (min ((ts - t0) / 1000) 0.032 / 10))^[10] ast.state).time * 20⌋
        > ⌊ast.state.time * 20⌋ →
      (tick ast ts).history =
        ast.history ++
          [{ time := round2
                (((fun s => rk4 s ast.config (min ((ts - t0) / 1000) 0.032 / 10))^[10] ast.state).time)
             theta1 := round1
                ((((fun s => rk4 s ast.config (min ((ts - t0) / 1000) 0.032 / 10))^[10] ast.state).theta1)
                  * 180 / Real.pi)
             theta2 := round1
                ((((fun s => rk4 s ast.config (min ((ts - t0) / 1000) 0.032 / 10))^[10] ast.state).theta2)
                  * 180 / Real.pi) }])
    ∧ (¬ ⌊((fun s => rk4 s ast.config (min ((ts - t0) / 1000) 0.032 / 10))^[10] ast.state).time * 20⌋
        > ⌊ast.state.time * 20⌋ →
      (tick ast ts).history = ast.history) := by
  rcases ast with ⟨cfg, st, b, hist, lt⟩
  simp only at hl hr hlen
  subst hl
  subst hr
  constructor
  · intro hcond
    have happ : (tick ⟨cfg, st, true, hist, some t0⟩ ts).history =
        takeLast100 (hist ++
          [mkHistoryPoint ((fun s => rk4 s cfg (min ((ts - t0) / 1000) 0.032 / 10))^[10] st)]) := by
      simp only [tick]
      rw [if_pos hcond]
      simp
    rw [happ, takeLast100_of_le]
    · rfl
    · rw [List.length_append]
      simp only [List.length_singleton]
      omega
  · intro hcond
    simp only [tick]
    rw [if_neg hcond]
    simp

/-- Concrete app state exercising the history-sampling theorem. -/
def astW5 : AppState :=
  { config := INITIAL_CONFIG, state := INITIAL_STATE, isRunning := true
    history := [], lastTime := some 0 }

/-- Witness for C5 at a concrete running app state and timestamp 16 ms. -/
theorem tick_history_sample_witness :
    (⌊((fun s => rk4 s astW5.config (min ((16 - 0) / 1000) 0.032 / 10))^[10] astW5.state).time * 20⌋
        > ⌊astW5.state.time * 20⌋ →
      (tick astW5 16).history =
        astW5.history ++
          [{ time := round2
                (((fun s => rk4 s astW5.config (min ((16 - 0) / 1000) 0.032 / 10))^[10] astW5.state).time)
             theta1 := round1
                ((((fun s => rk4 s astW5.config (min ((16 - 0) / 1000) 0.032 / 10))^[10] astW5.state).theta1)
                  * 180 / Real.pi)
             theta2 := round1
                ((((fun s => rk4 s astW5.config (min ((16 - 0) / 1000) 0.032 / 10))^[10] astW5.state).theta2)
                  * 180 / Real.pi) }])
    ∧ (¬ ⌊((fun s => rk4 s astW5.config (min ((16 - 0) / 1000) 0.032 / 10))^[10] astW5.state).time * 20⌋
        > ⌊astW5.state.time * 20⌋ →
      (tick astW5 16).history = astW5.history) :=
  tick_history_sample astW5 16 0 rfl rfl (Nat.zero_le 99)

/-- Rounding to 0.01 overshoots by at most half a hundredth. -/
lemma round2_le (t : ℝ) : round2 t ≤ t + 5 / 1000 := by
  have h := Int.floor_le (t * 100 + 1 / 2)
  unfold round2
  linarith

/-- Rounding to 0.01 undershoots by less than half a hundredth. -/
lemma lt_round2 (t : ℝ) : t - 5 / 1000 < round2 t := by
  have h := Int.sub_one_lt_floor (t * 100 + 1 / 2)
  unfold round2
  linarith

/-- When the 1/20-second bucket advances, the new time is at least the
boundary of the next bucket after the old one. -/
lemma bucket_le (s t : ℝ) (h : ⌊s * 20⌋ < ⌊t * 20⌋) :
    ((⌊s * 20⌋ : ℝ) + 1) / 20 ≤ t := by
  have h1 : (⌊s * 20⌋ : ℝ) + 1 ≤ (⌊t * 20⌋ : ℝ) := by exact_mod_cast Int.add_one_le_iff.mpr h
  have h2 := Int.floor_le (t * 20)
  linarith

/-- A time reached by crossing a bucket boundary with a step of at most
0.032 s rounds, to 0.01, strictly below the next boundary with half a
hundredth to spare. -/
lemma round2_below_next_bucket (s t : ℝ) (h : ⌊s * 20⌋ < ⌊t * 20⌋)
    (hle : t ≤ s + 32 / 1000) :
    round2 t + 5 / 1000 < ((⌊t * 20⌋ : ℝ) + 1) / 20 := by
  have h1 : (⌊s * 20⌋ : ℝ) + 1 ≤ (⌊t * 20⌋ : ℝ) := by exact_mod_cast Int.add_one_le_iff.mpr h
  have h2 := Int.lt_floor_add_one (s * 20)
  have h3 := round2_le t
  linarith

/-- The next-bucket boundary is monotone in time. -/
lemma bucket_mono (s t : ℝ) (h : s ≤ t) :
    ((⌊s * 20⌋ : ℝ) + 1) / 20 ≤ ((⌊t * 20⌋ : ℝ) + 1) / 20 := by
  have h1 : (⌊s * 20⌋ : ℝ) ≤ (⌊t * 20⌋ : ℝ) := by
    exact_mod_cast Int.floor_mono (by linarith : s * 20 ≤ t * 20)
  linarith

/-- The history invariant maintained by the App: at most 100 entries,
strictly increasing stored times, and every stored (rounded) time is at
least half a hundredth below the next 1/20-second bucket boundary of the
current simulation time. -/
def HistInv (ast : AppState) : Prop :=
  ast.history.length ≤ 100
  ∧ List.Pairwise (fun p q : HistoryPoint => p.time < q.time) ast.history
  ∧ ∀ p ∈ ast.history, p.time + 5 / 1000 < ((⌊ast.state.time * 20⌋ : ℝ) + 1) / 20

/-- Every branch of a tick records the timestamp as the new anchor. -/
lemma tick_lastTime (ast : AppState) (ts : ℝ) : (tick ast ts).lastTime = some ts := by
  rcases ast with ⟨cfg, st, b, hist, lt⟩
  cases lt <;> cases b <;> simp [tick]

/-- One tick preserves the history invariant, provided the wall-clock
timestamp does not run backwards relative to the stored anchor. -/
lemma histInv_tick (ast : AppState) (ts : ℝ) (hInv : HistInv ast)
    (hts : ∀ t0, ast.lastTime = some t0 → t0 ≤ ts) :
    HistInv (tick ast ts) := by
  obtain ⟨hlen, hpw, hbound⟩ := hInv
  rcases ast with ⟨cfg, st, b, hist, lt⟩
  cases lt with
  | none => exact ⟨hlen, hpw, hbound⟩
  | some t0 =>
    cases b with
    | false => exact ⟨hlen, hpw, hbound⟩
    | true =>
      have ht0 : t0 ≤ ts := hts t0 rfl
      simp only [tick, if_true]
      set dt : ℝ := min ((ts - t0) / 1000) 0.032 with hdt
      have hdt0 : 0 ≤ dt := le_min (div_nonneg (by linarith) (by norm_num)) (by norm_num)
      have hdt32 : dt ≤ 32 / 1000 := le_trans (min_le_right _ _) (by norm_num)
      set cur : PendulumState := (fun s => rk4 s cfg (dt / 10))^[10] st with hcur
      have hcurtime : cur.time = st.time + dt := by
        rw [hcur, iterate_rk4_time]
        push_cast
        ring
      by_cases hcond : ⌊cur.time * 20⌋ > ⌊st.time * 20⌋
      · rw [if_pos hcond]
        have hbB : ((⌊st.time * 20⌋ : ℝ) + 1) / 20 ≤ cur.time := bucket_le _ _ hcond
        have hnew : ∀ p ∈ hist ++ [mkHistoryPoint cur],
            p.time + 5 / 1000 < ((⌊cur.time * 20⌋ : ℝ) + 1) / 20 := by
          intro p hp
          rcases List.mem_append.mp hp with hp | hp
          · have h1 := hbound p hp
            have h2 := bucket_mono st.time cur.time (by linarith [hcurtime])
            linarith
          · have hpeq : p = mkHistoryPoint cur := List.mem_singleton.mp hp
            subst hpeq
            have := round2_below_next_bucket st.time cur.time hcond (by linarith [hcurtime])
            simpa [mkHistoryPoint] using this
        refine ⟨?_, ?_, ?_⟩
        · show (takeLast100 (hist ++ [mkHistoryPoint cur])).length ≤ 100
          unfold takeLast100
          rw [List.length_drop]
          omega
        · show List.Pairwise _ (takeLast100 (hist ++ [mkHistoryPoint cur]))
          apply List.Pairwise.sublist (List.drop_sublist _ _)
          rw [List.pairwise_append]
          refine ⟨hpw, List.pairwise_singleton _ _, ?_⟩
          intro a ha p hp
          have hpeq : p = mkHistoryPoint cur := List.mem_singleton.mp hp
          subst hpeq
          have h1 := hbound a ha
          have h2 := lt_round2 cur.time
          have h3 : ((⌊st.time * 20⌋ : ℝ) + 1) / 20 ≤ cur.time := hbB
          simp only [mkHistoryPoint]
          linarith
        · intro p hp
          exact hnew p (List.mem_of_mem_drop hp)
      · rw [if_neg hcond]
        refine ⟨hlen, hpw, ?_⟩
        intro p hp
        have h1 := hbound p hp
        have h2 := bucket_mono st.time cur.time (by linarith [hcurtime])
        linarith

/-- Running any event sequence whose tick timestamps are non-decreasing
(and do not precede the stored anchor) preserves the history invariant. -/
lemma histInv_run (evs : List AppEvent) : ∀ (ast : AppState), HistInv ast →
    (evs.filterMap tickStamp).Pairwise (· ≤ ·) →
    (∀ t0, ast.lastTime = some t0 → ∀ ts ∈ evs.filterMap tickStamp, t0 ≤ ts) →
    HistInv (run ast evs) := by
  induction evs with
  | nil => intro ast hInv _ _; exact hInv
  | cons e rest ih =>
    intro ast hInv hmono hanchor
    cases e with
    | tick ts =>
      have hfm : ((AppEvent.tick ts :: rest).filterMap tickStamp)
          = ts :: rest.filterMap tickStamp := by simp [tickStamp]
      rw [hfm] at hmono hanchor
      have hpc := List.pairwise_cons.mp hmono
      apply ih (tick ast ts)
      · exact histInv_tick ast ts hInv
          (fun t0 h => hanchor t0 h ts (List.mem_cons_self _ _))
      · exact hpc.2
      · intro t0 h ts' hts'
        rw [tick_lastTime] at h
        cases h
        exact hpc.1 ts' hts'
    | setConfig c =>
      have hfm : ((AppEvent.setConfig c :: rest).filterMap tickStamp)
          = rest.filterMap tickStamp := by simp [tickStamp]
      rw [hfm] at hmono hanchor
      exact ih _ hInv hmono hanchor
    | setRunning b =>
      have hfm : ((AppEvent.setRunning b :: rest).filterMap tickStamp)
          = rest.filterMap tickStamp := by simp [tickStamp]
      rw [hfm] at hmono hanchor
      exact ih _ hInv hmono hanchor
    | reset =>
      have hfm : ((AppEvent.reset :: rest).filterMap tickStamp)
          = rest.filterMap tickStamp := by simp [tickStamp]
      rw [hfm] at hmono hanchor
      apply ih (resetApp ast)
      · refine ⟨by simp [resetApp], by simp [resetApp], ?_⟩
        intro p hp
        simp [resetApp] at hp
      · exact hmono
      · intro t0 h
        simp [resetApp] at h

/-- C6: for any event sequence with non-decreasing tick timestamps, the
history never exceeds 100 entries and its stored times are strictly
increasing from oldest to newest; moreover every tick either leaves the
history unchanged or appends one point and discards from the front
(oldest first) exactly when the bound would be exceeded. -/
theorem history_bounded_sorted (evs : List AppEvent)
    (hmono : (evs.filterMap tickStamp).Pairwise (· ≤ ·)) :
    ((run appInit evs).history.length ≤ 100
      ∧ List.Pairwise (fun p q : HistoryPoint => p.time < q.time) (run appInit evs).history)
    ∧ ∀ (ast : AppState) (ts : ℝ),
        (tick ast ts).history = ast.history
        ∨ ∃ p, (tick ast ts).history
            = (ast.history ++ [p]).drop ((ast.history.length + 1) - 100) := by
  constructor
  · have hInit : HistInv appInit := by
      refine ⟨by simp [appInit], by simp [appInit], ?_⟩
      intro p hp
      simp [appInit] at hp
    have h := histInv_run evs appInit hInit hmono (by intro t0 h; simp [appInit] at h)
    exact ⟨h.1, h.2.1⟩
  · intro ast ts
    rcases ast with ⟨cfg, st, b, hist, lt⟩
    cases lt with
    | none => left; simp [tick]
    | some t0 =>
      cases b with
      | false => left; simp [tick]
      | true =>
        simp only [tick, if_true]
        by_cases hcond :
            ⌊((fun s => rk4 s cfg (min ((ts - t0) / 1000) 0.032 / 10))^[10] st).time * 20⌋
              > ⌊st.time * 20⌋
        · right
          refine ⟨mkHistoryPoint ((fun s => rk4 s cfg (min ((ts - t0) / 1000) 0.032 / 10))^[10] st), ?_⟩
          rw [if_pos hcond]
          show takeLast100 _ = _
          unfold takeLast100
          rw [List.length_append, List.length_singleton]
        · left
          rw [if_neg hcond]

/-- A concrete event sequence (start, then three frames) exercising the
history invariant. -/
def evsW6 : List AppEvent :=
  [AppEvent.setRunning true, AppEvent.tick 0, AppEvent.tick 16, AppEvent.tick 33]

/-- Witness for C6 on a concrete monotone tick sequence. -/
theorem history_bounded_sorted_witness :
    (((run appInit evsW6).history.length ≤ 100
      ∧ List.Pairwise (fun p q : HistoryPoint => p.time < q.time) (run appInit evsW6).history)
    ∧ ∀ (ast : AppState) (ts : ℝ),
        (tick ast ts).history = ast.history
        ∨ ∃ p, (tick ast ts).history
            = (ast.history ++ [p]).drop ((ast.history.length + 1) - 100)) :=
  history_bounded_sorted evsW6
    (by norm_num [evsW6, tickStamp, List.filterMap_cons, List.filterMap_nil, List.pairwise_cons])

/-- The stable equilibrium: both angles and both angular velocities are
zero. -/
def IsRest (s : PendulumState) : Prop :=
  s.theta1 = 0 ∧ s.omega1 = 0 ∧ s.theta2 = 0 ∧ s.omega2 = 0

/-- The spec's validity precondition on a config: positive lengths and
masses, non-negative gravity and damping. -/
def ValidConfig (c : PendulumConfig) : Prop :=
  0 < c.L1 ∧ 0 < c.L2 ∧ 0 < c.m1 ∧ 0 < c.m2 ∧ 0 ≤ c.g ∧ 0 ≤ c.damping

/-- At the equilibrium the derivative evaluator returns the zero vector. -/
lemma derivatives_rest (cfg : PendulumConfig) :
    derivatives ⟨0, 0, 0, 0⟩ cfg = ⟨0, 0, 0, 0⟩ := by
  simp [derivatives]

/-- An RK4 step from rest stays at rest and only advances time. -/
lemma rk4_rest (cfg : PendulumConfig) (dt : ℝ) (s : PendulumState) (h : IsRest s) :
    rk4 s cfg dt =
      { theta1 := 0, omega1 := 0, theta2 := 0, omega2 := 0, time := s.time + dt } := by
  obtain ⟨h1, h2, h3, h4⟩ := h
  rcases s with ⟨a, b, c, d, t⟩
  simp only at h1 h2 h3 h4
  subst h1
  subst h2
  subst h3
  subst h4
  simp [rk4, updVec, derivatives_rest]

/-- Iterated RK4 steps preserve rest. -/
lemma isRest_iterate (cfg : PendulumConfig) (dt : ℝ) (n : ℕ) (s : PendulumState)
    (h : IsRest s) : IsRest ((fun st => rk4 st cfg dt)^[n] s) := by
  induction n generalizing s with
  | zero => exact h
  | succ n ih =>
    rw [Function.iterate_succ_apply]
    apply ih
    rw [rk4_rest cfg dt s h]
    exact ⟨rfl, rfl, rfl, rfl⟩

/-- A tick from rest leaves the system at rest. -/
lemma isRest_tick (ast : AppState) (ts : ℝ) (h : IsRest ast.state) :
    IsRest (tick ast ts).state := by
  rcases ast with ⟨cfg, st, b, hist, lt⟩
  cases lt with
  | none => exact h
  | some t0 =>
    cases b with
    | false => exact h
    | true => exact isRest_iterate cfg (min ((ts - t0) / 1000) 0.032 / 10) 10 st h

/-- C8: starting from the stable equilibrium (angles and angular
velocities all zero) with any valid config, the system stays exactly at
rest for every dt and every number of RK4 steps — only the time field
advances, by `n * dt` — and likewise stays at rest under any sequence of
driver ticks. -/
theorem equilibrium_fixed (cfg : PendulumConfig) (hv : ValidConfig cfg) :
    (∀ (dt tau : ℝ) (n : ℕ),
        IsRest ((fun s => rk4 s cfg dt)^[n] ⟨0, 0, 0, 0, tau⟩)
        ∧ ((fun s => rk4 s cfg dt)^[n] ⟨0, 0, 0, 0, tau⟩).time = tau + n * dt)
    ∧ (∀ (tss : List ℝ) (ast : AppState), ast.config = cfg → IsRest ast.state →
        IsRest (run ast (tss.map AppEvent.tick)).state) := by
  constructor
  · intro dt tau n
    refine ⟨isRest_iterate cfg dt n _ ⟨rfl, rfl, rfl, rfl⟩, ?_⟩
    rw [iterate_rk4_time]
  · intro tss
    induction tss with
    | nil => intro ast _ h; exact h
    | cons ts rest ih =>
      intro ast hc h
      have hrun : run ast ((ts :: rest).map AppEvent.tick)
          = run (tick ast ts) (rest.map AppEvent.tick) := rfl
      rw [hrun]
      apply ih
      · rcases ast with ⟨cfg', st, b, hist, lt⟩
        simp only at hc
        subst hc
        cases lt <;> cases b <;> rfl
      · exact isRest_tick ast ts h

/-- Witness for C8 at the repository's own initial config. -/
theorem equilibrium_fixed_witness :
    (∀ (dt tau : ℝ) (n : ℕ),
        IsRest ((fun s => rk4 s INITIAL_CONFIG dt)^[n] ⟨0, 0, 0, 0, tau⟩)
        ∧ ((fun s => rk4 s INITIAL_CONFIG dt)^[n] ⟨0, 0, 0, 0, tau⟩).time = tau + n * dt)
    ∧ (∀ (tss : List ℝ) (ast : AppState), ast.config = INITIAL_CONFIG → IsRest ast.state →
        IsRest (run ast (tss.map AppEvent.tick)).state) :=
  equilibrium_fixed INITIAL_CONFIG
    (by norm_num [ValidConfig, INITIAL_CONFIG])

/-- C9: reset clears the timestamp anchor and the history and restores
the initial state; afterwards, any event sequence produces results
identical to those of any other post-reset simulation that shares the
externally-owned config and running flag — no residual state survives a
reset. -/
theorem reset_no_residual (ast1 ast2 : AppState)
    (hc : ast1.config = ast2.config) (hr : ast1.isRunning = ast2.isRunning) :
    (resetApp ast1).state = INITIAL_STATE
    ∧ (resetApp ast1).history = [] ∧ (resetApp ast1).lastTime = none
    ∧ ∀ evs : List AppEvent, run (resetApp ast1) evs = run (resetApp ast2) evs := by
  refine ⟨rfl, rfl, rfl, ?_⟩
  intro evs
  have h : resetApp ast1 = resetApp ast2 := by
    rcases ast1 with ⟨c1, s1, b1, h1, l1⟩
    rcases ast2 with ⟨c2, s2, b2, h2, l2⟩
    simp only at hc hr
    subst hc
    subst hr
    rfl
  rw [h]

/-- A dirty app state: mid-flight pendulum, non-empty history, stale
anchor. -/
def astW9 : AppState :=
  { config := INITIAL_CONFIG
    state := { theta1 := 1, omega1 := 2, theta2 := 3, omega2 := 4, time := 5 }
    isRunning := false
    history := [{ time := 1, theta1 := 2, theta2 := 3 }]
    lastTime := some 7 }

/-- Witness for C9: resetting the dirty state behaves like a fresh
mount. -/
theorem reset_no_residual_witness :
    (resetApp astW9).state = INITIAL_STATE
    ∧ (resetApp astW9).history = [] ∧ (resetApp astW9).lastTime = none
    ∧ ∀ evs : List AppEvent, run (resetApp astW9) evs = run (resetApp appInit) evs :=
  reset_no_residual astW9 appInit rfl rfl

/-- C10: reset takes no initial-state argument — it is a function of the
app state alone — and always restores the single built-in initial
condition theta1 = pi/3, omega1 = 0, theta2 = pi/4, omega2 = 0, time = 0,
clearing history and anchor while leaving the config (and running flag)
unchanged, whatever the app state was. -/
theorem reset_builtin (ast : AppState) :
    resetApp ast =
      { config := ast.config
        state := { theta1 := Real.pi / 3, omega1 := 0, theta2 := Real.pi / 4
                   omega2 := 0, time := 0 }
        isRunning := ast.isRunning
        history := []
        lastTime := none } := rfl

end
